import Mathlib

/-!
Verification of the hackmud chat API client (TypeScript) against its
natural-language specification.

The embedding follows `src/unnamed/part_000` (the most complete variant of the
module: its `Client` tracks `lastMessageId`, and its `api` handles HTTP 401 and
content types).  JavaScript `Map`s are modelled as insertion-ordered
association lists, with `Map.set` replacing in place when the key exists (as JS
does).  `Array.prototype.sort` (stable in modern engines) is modelled with
`List.mergeSort`.  Times (`number`, epoch seconds) are modelled as `Int`.
JavaScript code that would throw a `TypeError` at runtime (pushing onto the
`toUsers` of an entry that is actually a tell, reachable when one raw batch
holds a tell and another a channel message under the same id) is modelled by
`Option`, with `none` for the throw.
-/

namespace HackmudChat

/-- `enum MessageType { Join, Leave, Send, Tell }` -/
inductive MessageType
  | join
  | leave
  | send
  | tell
deriving DecidableEq, Repr

/-- `ChannelMessage` from the source: a normalized channel-scoped message.
In the source `type` ranges over `Join | Leave | Send` only; the normalizer
below never writes `tell` into this field. -/
structure ChannelMessage where
  id : String
  user : String
  type : MessageType
  content : String
  channel : String
  time : Int
  toUsers : List String
deriving DecidableEq, Repr

/-- `TellMessage` from the source: a normalized direct message. -/
structure TellMessage where
  id : String
  user : String
  content : String
  time : Int
  toUser : String
deriving DecidableEq, Repr

/-- The union `ChannelMessage | TellMessage` used for normalized output. -/
inductive NormMessage
  | chan (m : ChannelMessage)
  | tell (m : TellMessage)
deriving DecidableEq, Repr

/-- The id of a normalized message. -/
def NormMessage.nid : NormMessage → String
  | .chan m => m.id
  | .tell m => m.id

/-- The `time` field of a normalized message. -/
def NormMessage.time : NormMessage → Int
  | .chan m => m.time
  | .tell m => m.time

/-- Raw message records as delivered by the `chats` endpoint: the TS union
`RawTellMessage | RawChannelMessage | RawJoinMessage | RawLeaveMessage`.
A record either carries a `channel` field (channel-scoped; `is_join` /
`is_leave` model the presence of those literal-`true` fields) or a `to_user`
field (a tell); the normalizer discriminates on `"channel" in message`. -/
inductive RawMessage
  | tell (id : String) (t : Int) (from_user msg to_user : String)
  | channel (id : String) (t : Int) (from_user msg channel : String)
      (is_join is_leave : Bool)
deriving DecidableEq, Repr

/-- The `id` field of a raw record. -/
def RawMessage.rid : RawMessage → String
  | .tell id _ _ _ _ => id
  | .channel id _ _ _ _ _ _ => id

/-- Is the raw record channel-scoped (`"channel" in message`)? -/
def RawMessage.isChannel : RawMessage → Bool
  | .tell _ _ _ _ _ => false
  | .channel _ _ _ _ _ _ _ => true

/-- The insertion-ordered map `idMessages : Map<string, ChannelMessage | TellMessage>`. -/
abbrev IdMap := List (String × NormMessage)

/-- `Map.get`: first (and, with distinct keys, only) binding of a key. -/
def mapGet {β : Type} (m : List (String × β)) (k : String) : Option β :=
  (m.find? (fun p => p.1 = k)).map (·.2)

/-- `Map.set`: replace in place when the key is present (JS `Map.set` keeps the
original insertion position), append otherwise. -/
def mapSet {β : Type} (m : List (String × β)) (k : String) (v : β) :
    List (String × β) :=
  if m.any (fun p => p.1 = k) then
    m.map (fun p => if p.1 = k then (k, v) else p)
  else
    m ++ [(k, v)]

/-- `let type; if ("is_join" in message) type = Join else if ("is_leave" in
message) type = Leave else type = Send`. -/
def classify (isJoin isLeave : Bool) : MessageType :=
  if isJoin then .join else if isLeave then .leave else .send

/-- One iteration of the inner loop of `getMessages` over `(user, message)`:
mutate `idMessages` according to the record.  `none` models the `TypeError`
thrown by `(idMessage as ChannelMessage).toUsers.push(user)` when the existing
entry under this id is a tell (its `toUsers` is `undefined`). -/
def processRecord (idMessages : IdMap) (user : String) :
    RawMessage → Option IdMap
  | .tell id t from_user msg to_user =>
      some (mapSet idMessages id
        (.tell { id := id, user := from_user, content := msg, time := t,
                 toUser := to_user }))
  | .channel id t from_user msg channel isJoin isLeave =>
      match mapGet idMessages id with
      | some (.chan c) =>
          some (mapSet idMessages id
            (.chan { c with toUsers := c.toUsers ++ [user] }))
      | some (.tell _) => none
      | none =>
          some (idMessages ++ [(id,
            .chan { id := id, user := from_user,
                    type := classify isJoin isLeave, content := msg,
                    channel := channel, time := t, toUsers := [user] })])

/-- A raw batch: `Object.entries(chats)`, in iteration order. -/
abbrev RawBatch := List (String × List RawMessage)

/-- The nested `for` loops of `getMessages` building `idMessages`. -/
def processChats (chats : RawBatch) : Option IdMap :=
  chats.foldl
    (fun acc p => p.2.foldl
      (fun acc' m => acc'.bind (fun l => processRecord l p.1 m)) acc)
    (some [])

/-- Comparison used by `.sort((a, b) => a.time - b.time)`. -/
def timeLE (a b : NormMessage) : Prop :=
  NormMessage.time a ≤ NormMessage.time b

instance : DecidableRel timeLE :=
  fun a b => inferInstanceAs (Decidable (a.time ≤ b.time))

instance : IsTotal NormMessage timeLE :=
  ⟨fun a b => Int.le_total a.time b.time⟩

instance : IsTrans NormMessage timeLE :=
  ⟨fun _ _ _ h1 h2 => le_trans h1 h2⟩

/-- `[...idMessages.values()].sort((a, b) => a.time - b.time)`: modern JS
engines implement a stable sort, modelled here by stable insertion sort. -/
def sortByTime (l : List NormMessage) : List NormMessage :=
  List.insertionSort timeLE l

/-- The pure core of `getMessages` (everything after the transport call):
normalize a raw batch into a deduplicated, time-ordered sequence. -/
def getMessages (chats : RawBatch) : Option (List NormMessage) :=
  (processChats chats).map (fun l => sortByTime (l.map Prod.snd))

/-- Is a normalized message channel-kind? -/
def NormMessage.isChan : NormMessage → Bool
  | .chan _ => true
  | .tell _ => false

/-- The `(observing user, record)` pairs of a batch, in iteration order. -/
def flatRecords : RawBatch → List (String × RawMessage)
  | [] => []
  | p :: rest => p.2.map (fun m => (p.1, m)) ++ flatRecords rest

/-- Processing a flat list of `(observing user, record)` pairs. -/
def processPairs (acc : Option IdMap) (l : List (String × RawMessage)) :
    Option IdMap :=
  l.foldl (fun a um => a.bind (fun L => processRecord L um.1 um.2)) acc

/-! ### The normalizer invariant (per processed flat prefix) -/

/-- State of `idMessages` after the nested loops have processed exactly the
`(observing user, record)` pairs in `done`: one entry per distinct id seen so
far, each channel entry's `toUsers` enumerating without duplication the
observing users whose processed records carry that id, and each entry
channel-kind exactly when a channel record with its id has been seen. -/
structure Inv (done : List (String × RawMessage)) (L : IdMap) : Prop where
  keysNodup : (L.map Prod.fst).Nodup
  nidEq : ∀ k v, (k, v) ∈ L → NormMessage.nid v = k
  keysIff : ∀ i, i ∈ L.map Prod.fst ↔ ∃ um ∈ done, RawMessage.rid um.2 = i
  chanUsers : ∀ k c, (k, NormMessage.chan c) ∈ L →
    c.toUsers.Nodup ∧
      ∀ u, u ∈ c.toUsers ↔ ∃ um ∈ done, um.1 = u ∧ RawMessage.rid um.2 = k
  chanIff : ∀ k v, (k, v) ∈ L →
    (NormMessage.isChan v = true ↔
      ∃ um ∈ done, RawMessage.rid um.2 = k ∧ RawMessage.isChannel um.2 = true)

/-- All records sharing an id agree on being channel-scoped or a tell. -/
def ConsistentKinds (F : List (String × RawMessage)) : Prop :=
  ∀ um ∈ F, ∀ um' ∈ F, RawMessage.rid um.2 = RawMessage.rid um'.2 →
    RawMessage.isChannel um.2 = RawMessage.isChannel um'.2

/-- No `(observing user, id)` pair occurs twice among the flat records. -/
def NodupUserIds (F : List (String × RawMessage)) : Prop :=
  (F.map (fun um => (um.1, RawMessage.rid um.2))).Nodup

/-! ### The polling loop (`Client.getMessagesLoop`) -/

/-- The loop-relevant state of a `Client`: the high-water-mark `time` and the
id of the last dispatched message (`lastMessageId`, initially `""`). -/
structure LoopState where
  time : Int
  lastMessageId : String
deriving DecidableEq, Repr

/-- One body of `Client.getMessagesLoop`, after the awaited `getMessages`
call: `fetch` is the awaited outcome (`none` models a rejected promise, which
aborts the body before anything runs).  `now` is `Date.now() / 1000`.
Returns the state after the body, the batch passed to every message handler
(`[]` when the handlers did not run), and whether `this.timeout?.refresh()`
was reached. -/
def getMessagesLoop (s : LoopState) (fetch : Option (List NormMessage))
    (now : Int) : LoopState × List NormMessage × Bool :=
  match fetch with
  | none => (s, [], false)
  | some [] => ({ s with time := now }, [], true)
  | some (m0 :: rest) =>
      match (if NormMessage.nid m0 = s.lastMessageId then rest
             else m0 :: rest) with
      | [] => (s, [], true)
      | m1 :: rest1 =>
          ({ time := NormMessage.time ((m1 :: rest1).getLast (by simp)),
             lastMessageId :=
               NormMessage.nid ((m1 :: rest1).getLast (by simp)) },
           m1 :: rest1, true)

/-! ### `getChannels` -/

/-- Raw `account_data` payload:
`users: Record<username, Record<channel, username[]>>`, in iteration order. -/
abbrev AccountData := List (String × List (String × List String))

/-- The two TS overloads of `getChannels`: only the user→channels map, or
both maps. -/
inductive GetChannelsResult
  | usersOnly (users : List (String × List String))
  | withChannels (users channels : List (String × List String))
deriving DecidableEq, Repr

/-- The inner `for (const channel in channelsData)` loop of `getChannels`:
`if (!channels.get(channel)) channels.set(channel, channelsData[channel])`
(an absent key is the only falsy case — arrays are truthy). -/
def addChannels (chs : List (String × List String))
    (channelsData : List (String × List String)) :
    List (String × List String) :=
  channelsData.foldl
    (fun chs q => if (mapGet chs q.1).isSome then chs else mapSet chs q.1 q.2)
    chs

/-- The outer `for (let user in usersData)` loop of `getChannels`, carrying
the `users` and `channels` maps. -/
def getChannelsFold (mapChannels : Bool)
    (st : List (String × List String) × List (String × List String))
    (d : AccountData) :
    List (String × List String) × List (String × List String) :=
  d.foldl
    (fun st p =>
      (mapSet st.1 p.1 (p.2.map Prod.fst),
       if mapChannels then addChannels st.2 p.2 else st.2))
    st

/-- The pure core of `getChannels` (after the transport call). -/
def getChannels (usersData : AccountData) (mapChannels : Bool) :
    GetChannelsResult :=
  let st := getChannelsFold mapChannels ([], []) usersData
  if mapChannels then .withChannels st.1 st.2 else .usersOnly st.1

/-- The channel→users lookup as the spec words it, for comparison with the
code: the user list of the first user entry (in iteration order) that
mentions the channel. -/
def firstSeenChannelUsers (d : AccountData) (c : String) :
    Option (List String) :=
  match d with
  | [] => none
  | p :: rest =>
      match mapGet p.2 c with
      | some us => some us
      | none => firstSeenChannelUsers rest c

/-! ### The transport adapter (`api`) response handling -/

/-- The parsed JSON envelope of a response body.  Charset decoding and
`JSON.parse` are abstracted: the handler below receives the envelope the
source would have parsed. -/
structure ParsedBody where
  ok : Bool
  msg : String
deriving DecidableEq, Repr

/-- Characters before the first `"; "`, i.e. `s.split("; ")[0]`. -/
def splitFirstSep : List Char → List Char
  | [] => []
  | ';' :: ' ' :: _ => []
  | c :: rest => c :: splitFirstSep rest

/-- `res.headers["content-type"].toLowerCase().split("; ")[0]`. -/
def mimeTypeOf (ct : String) : String :=
  String.mk (splitFirstSep (ct.data.map Char.toLower))

/-- The `end` handler of `api` (part_000): reject 401 with the fixed auth
message; reject a missing or empty (falsy) content-type header; reject a
non-JSON mime type; then resolve a truthy `ok` envelope and reject a falsy
one with the server-supplied `msg`.  Every rejection is a bare
`new Error(message)`, modelled as `Except.error message`. -/
def handleResponse (statusCode : Int) (contentType : Option String)
    (parsed : ParsedBody) : Except String ParsedBody :=
  if statusCode = 401 then Except.error "expired or invalid token"
  else
    match contentType with
    | none => Except.error "missing content-type in headers"
    | some ct =>
        if ct = "" then Except.error "missing content-type in headers"
        else if mimeTypeOf ct ≠ "application/json" then
          Except.error ("server response mime type was '" ++ mimeTypeOf ct
            ++ "'")
        else if parsed.ok then Except.ok parsed
        else Except.error parsed.msg

/-! ### `getMessages` username normalization -/

/-- The `usernames: string | string[]` parameter of `getMessages`. -/
inductive Usernames
  | str (u : String)
  | list (us : List String)
deriving DecidableEq, Repr

/-- `if (typeof usernames == "string") usernames = [ usernames ]`. -/
def normalizeUsernames : Usernames → List String
  | .str u => [u]
  | .list us => us

/-- `getMessages` with its transport call abstracted: `fetch` stands for
`api("chats", { chat_token, usernames, after })`, returning the `chats`
grouping the server sends for that token, user list and window. -/
def getMessagesFull (chatToken : String)
    (fetch : String → List String → Int → RawBatch)
    (usernames : Usernames) (after : Int) : Option (List NormMessage) :=
  getMessages (fetch chatToken (normalizeUsernames usernames) after)

/-! ### The `Client` authentication lifecycle -/

/-- The lifecycle-relevant state of a `Client`.  `α` is the type of
registered start handlers (the source stores closures; theorems instantiate
it as needed).  `startHandlers = none` models the queue nulled out by
`init`. -/
structure ClientState (α : Type) where
  token : Option String
  users : Option (List String)
  startHandlers : Option (List α)

/-- `new Client(tokenOrPass)`: a 5-character argument is a pass, exchanged
asynchronously via `getToken` (so `init` has not run yet); any other length
is a token on which `init` starts synchronously, setting `this.token` before
its first `await`. -/
def mkClient (α : Type) (tokenOrPass : String) : ClientState α :=
  if tokenOrPass.length = 5 then
    { token := none, users := none, startHandlers := some [] }
  else
    { token := some tokenOrPass, users := none, startHandlers := some [] }

/-- `Client.onStart`: throws `"already started"` once the queue has been
nulled, else appends the handler and returns. -/
def onStart {α : Type} (s : ClientState α) (h : α) :
    Except String (ClientState α) :=
  match s.startHandlers with
  | none => Except.error "already started"
  | some hs => Except.ok { s with startHandlers := some (hs ++ [h]) }

/-- Registering a list of start handlers in order. -/
def registerAll {α : Type} (s : ClientState α) (hs : List α) :
    Except String (ClientState α) :=
  List.foldlM onStart s hs

/-- The completion of `Client.init` (token exchange resolved with `token`,
`getChannels` resolved with `users`): record token and users, fire every
queued start handler in order — each is invoked with `token` — then null the
queue.  Returns the new state and the handlers fired, in firing order. -/
def initResolve {α : Type} (s : ClientState α) (token : String)
    (users : List String) : ClientState α × List α :=
  ({ token := some token, users := some users, startHandlers := none },
   s.startHandlers.getD [])

/-! ### `Client.tellMessage` / `Client.sendMessage` -/

/-- The target field of a `create_chat` call: `tell: to` or `channel`. -/
inductive ChatTarget
  | tell (toUser : String)
  | channel (ch : String)
deriving DecidableEq, Repr

/-- The argument object of `api("create_chat", ...)`. -/
structure CreateChatRequest where
  chat_token : String
  username : String
  target : ChatTarget
  msg : String
deriving DecidableEq, Repr

/-- Free function `tellMessage`: the `create_chat` request it issues. -/
def tellMessage (chatToken frm toU message : String) : CreateChatRequest :=
  { chat_token := chatToken, username := frm, target := ChatTarget.tell toU,
    msg := message }

/-- Free function `sendMessage`: the `create_chat` request it issues. -/
def sendMessage (chatToken frm channel message : String) : CreateChatRequest :=
  { chat_token := chatToken, username := frm,
    target := ChatTarget.channel channel, msg := message }

/-- How a `Client.tellMessage` / `sendMessage` call returns to its caller:
the request was issued immediately, or a start handler was queued whose
resolution value — the outcome of the request it issues once the token is
known — is adopted by the promise handed to the caller. -/
inductive SendCall
  | immediate (req : CreateChatRequest)
  | deferred

/-- `Client.tellMessage`: issue now when a token is present, else queue a
handler issuing it on start (`onStart` throws if the queue is closed). -/
def clientTellMessage (s : ClientState (String → CreateChatRequest))
    (frm toU message : String) :
    Except String (ClientState (String → CreateChatRequest) × SendCall) :=
  match s.token with
  | some tok =>
      Except.ok (s, SendCall.immediate (tellMessage tok frm toU message))
  | none =>
      (onStart s (fun tok => tellMessage tok frm toU message)).map
        (fun s' => (s', SendCall.deferred))

/-- `Client.sendMessage`: issue now when a token is present, else queue a
handler issuing it on start. -/
def clientSendMessage (s : ClientState (String → CreateChatRequest))
    (frm channel message : String) :
    Except String (ClientState (String → CreateChatRequest) × SendCall) :=
  match s.token with
  | some tok =>
      Except.ok (s, SendCall.immediate (sendMessage tok frm channel message))
  | none =>
      (onStart s (fun tok => sendMessage tok frm channel message)).map
        (fun s' => (s', SendCall.deferred))

lemma processPairs_append (acc : Option IdMap)
    (l₁ l₂ : List (String × RawMessage)) :
    processPairs acc (l₁ ++ l₂) = processPairs (processPairs acc l₁) l₂ :=
  List.foldl_append ..

lemma processPairs_map (acc : Option IdMap) (u : String) (ms : List RawMessage) :
    processPairs acc (ms.map (fun m => (u, m))) =
      ms.foldl (fun a m => a.bind (fun L => processRecord L u m)) acc := by
  induction ms generalizing acc with
  | nil => rfl
  | cons m rest ih => simp [processPairs, List.foldl_cons] at ih ⊢; exact ih _

/-- The nested loops of `getMessages` process exactly the flattened pairs. -/
lemma processChats_eq_processPairs (chats : RawBatch) :
    processChats chats = processPairs (some []) (flatRecords chats) := by
  suffices h : ∀ acc, chats.foldl
      (fun acc p => p.2.foldl
        (fun acc' m => acc'.bind (fun l => processRecord l p.1 m)) acc)
      acc = processPairs acc (flatRecords chats) from h (some [])
  induction chats with
  | nil => intro acc; rfl
  | cons p rest ih =>
      intro acc
      rw [List.foldl_cons, ih, flatRecords, processPairs_append,
        processPairs_map]

lemma processPairs_none (l : List (String × RawMessage)) :
    processPairs none l = none := by
  induction l with
  | nil => rfl
  | cons um rest ih => simpa [processPairs] using ih

lemma processPairs_cons (L : IdMap) (um : String × RawMessage)
    (l : List (String × RawMessage)) :
    processPairs (some L) (um :: l) =
      processPairs (processRecord L um.1 um.2) l := rfl

/-! ### Association-list lemmas for the JS `Map` model -/

lemma mapGet_eq_none {β : Type} {L : List (String × β)} {k : String} :
    mapGet L k = none ↔ k ∉ L.map Prod.fst := by
  induction L with
  | nil => simp [mapGet]
  | cons p rest ih =>
      by_cases hp : p.1 = k
      · simp [mapGet, List.find?_cons, hp]
      · have hstep : mapGet (p :: rest) k = mapGet rest k := by
          simp [mapGet, List.find?_cons, hp]
        rw [hstep, ih, List.map_cons]
        simp [Ne.symm hp]

lemma mapGet_mem {β : Type} {L : List (String × β)} {k : String} {v : β}
    (h : mapGet L k = some v) : (k, v) ∈ L := by
  unfold mapGet at h
  rw [Option.map_eq_some'] at h
  obtain ⟨p, hp, hv⟩ := h
  have hmem := List.mem_of_find?_eq_some hp
  have hk := List.find?_some hp
  simp at hk
  obtain ⟨a, b⟩ := p
  simp at hk hv
  subst hk; subst hv; exact hmem

lemma mem_keys_of_mapGet {β : Type} {L : List (String × β)} {k : String} {v : β}
    (h : mapGet L k = some v) : k ∈ L.map Prod.fst := by
  have := mapGet_mem h
  exact List.mem_map.2 ⟨(k, v), this, rfl⟩

lemma mapGet_isSome_of_mem_keys {β : Type} {L : List (String × β)} {k : String}
    (h : k ∈ L.map Prod.fst) : ∃ v, mapGet L k = some v := by
  rcases ho : mapGet L k with _ | v
  · exact absurd (mapGet_eq_none.1 ho) (by simp [h])
  · exact ⟨v, rfl⟩

lemma nodupKeys_eq {β : Type} {L : List (String × β)}
    (hnd : (L.map Prod.fst).Nodup) {k : String}
    {v v' : β} (h1 : (k, v) ∈ L) (h2 : (k, v') ∈ L) : v = v' := by
  induction L with
  | nil => cases h1
  | cons p rest ih =>
      rw [List.map_cons, List.nodup_cons] at hnd
      rcases List.mem_cons.1 h1 with h1 | h1 <;>
        rcases List.mem_cons.1 h2 with h2 | h2
      · exact (Prod.ext_iff.1 (h1.trans h2.symm)).2
      · exfalso
        apply hnd.1
        rw [← h1]
        exact List.mem_map.2 ⟨(k, v'), h2, rfl⟩
      · exfalso
        apply hnd.1
        rw [← h2]
        exact List.mem_map.2 ⟨(k, v), h1, rfl⟩
      · exact ih hnd.2 h1 h2

lemma mapSet_of_mem {β : Type} {L : List (String × β)} {k : String} (v : β)
    (h : k ∈ L.map Prod.fst) :
    mapSet L k v = L.map (fun p => if p.1 = k then (k, v) else p) := by
  unfold mapSet
  rw [if_pos]
  simp only [List.any_eq_true, decide_eq_true_eq]
  obtain ⟨p, hp, hpk⟩ := List.mem_map.1 h
  exact ⟨p, hp, hpk⟩

lemma mapSet_of_not_mem {β : Type} {L : List (String × β)} {k : String} (v : β)
    (h : k ∉ L.map Prod.fst) : mapSet L k v = L ++ [(k, v)] := by
  unfold mapSet
  rw [if_neg]
  simp only [List.any_eq_true, decide_eq_true_eq]
  rintro ⟨p, hp, hpk⟩
  exact h (List.mem_map.2 ⟨p, hp, hpk⟩)

lemma mapSet_keys_of_mem {β : Type} {L : List (String × β)} {k : String} (v : β)
    (h : k ∈ L.map Prod.fst) :
    (mapSet L k v).map Prod.fst = L.map Prod.fst := by
  rw [mapSet_of_mem v h, List.map_map]
  apply List.map_congr_left
  intro p _
  by_cases hp : p.1 = k <;> simp [hp]

lemma mem_mapSet_iff {β : Type} {L : List (String × β)} {k : String} {v : β}
    (hk : k ∈ L.map Prod.fst) {k' : String} {v' : β} :
    (k', v') ∈ mapSet L k v ↔
      (k' = k ∧ v' = v) ∨ ((k', v') ∈ L ∧ k' ≠ k) := by
  rw [mapSet_of_mem v hk]
  constructor
  · intro h
    obtain ⟨p, hp, hfp⟩ := List.mem_map.1 h
    by_cases hpk : p.1 = k
    · left
      rw [if_pos hpk] at hfp
      injection hfp with ha hb
      exact ⟨ha.symm, hb.symm⟩
    · right
      rw [if_neg hpk] at hfp
      subst hfp
      exact ⟨hp, hpk⟩
  · rintro (⟨rfl, rfl⟩ | ⟨hmem, hne⟩)
    · obtain ⟨p, hp, hpk⟩ := List.mem_map.1 hk
      exact List.mem_map.2 ⟨p, hp, by rw [if_pos hpk]⟩
    · exact List.mem_map.2 ⟨(k', v'), hmem, by rw [if_neg hne]⟩

lemma Inv.nil : Inv [] [] where
  keysNodup := List.nodup_nil
  nidEq := by intro k v h; cases h
  keysIff := by simp
  chanUsers := by intro k c h; cases h
  chanIff := by intro k v h; cases h

lemma step_tell {F done rest : List (String × RawMessage)} {u : String}
    {i0 : String} {t : Int} {fu ms tu : String}
    (hF : F = done ++ (u, RawMessage.tell i0 t fu ms tu) :: rest)
    (hcons : ConsistentKinds F)
    {L : IdMap} (hInv : Inv done L) :
    ∃ L', processRecord L u (RawMessage.tell i0 t fu ms tu) = some L' ∧
      Inv (done ++ [(u, RawMessage.tell i0 t fu ms tu)]) L' := by
  set m : RawMessage := RawMessage.tell i0 t fu ms tu with hm
  set newv : NormMessage := NormMessage.tell
    { id := i0, user := fu, content := ms, time := t, toUser := tu } with hnv
  have hmF : (u, m) ∈ F := by rw [hF]; simp
  have hdoneF : ∀ um ∈ done, um ∈ F := by intro um h; rw [hF]; exact List.mem_append_left _ h
  have hNoneChan : ¬∃ um ∈ done, RawMessage.rid um.2 = i0 ∧
      RawMessage.isChannel um.2 = true := by
    rintro ⟨um, hum, hrid, hch⟩
    have := hcons um (hdoneF um hum) (u, m) hmF (by rw [hm]; exact hrid)
    rw [this] at hch
    simp [hm, RawMessage.isChannel] at hch
  refine ⟨mapSet L i0 newv, rfl, ?_⟩
  by_cases hk : i0 ∈ L.map Prod.fst
  · -- key present: JS Map.set replaces in place
    have hkeys := mapSet_keys_of_mem newv hk
    have hmem : ∀ {k' : String} {v' : NormMessage},
        (k', v') ∈ mapSet L i0 newv ↔
          (k' = i0 ∧ v' = newv) ∨ ((k', v') ∈ L ∧ k' ≠ i0) :=
      fun {k'} {v'} => mem_mapSet_iff hk
    refine ⟨?_, ?_, ?_, ?_, ?_⟩
    · rw [hkeys]; exact hInv.keysNodup
    · intro k v h
      rcases hmem.1 h with ⟨rfl, rfl⟩ | ⟨hL, _⟩
      · rfl
      · exact hInv.nidEq k v hL
    · intro i
      rw [hkeys, hInv.keysIff i]
      simp only [List.mem_append, List.mem_singleton]
      constructor
      · rintro ⟨um, hum, hr⟩; exact ⟨um, Or.inl hum, hr⟩
      · rintro ⟨um, hum | hum, hr⟩
        · exact ⟨um, hum, hr⟩
        · subst hum
          have hi : i = i0 := by simpa [hm, RawMessage.rid] using hr.symm
          subst hi
          exact (hInv.keysIff i).1 hk
    · intro k c h
      rcases hmem.1 h with ⟨rfl, hc⟩ | ⟨hL, hne⟩
      · exact absurd hc (by simp [hnv])
      · obtain ⟨hnd, hiff⟩ := hInv.chanUsers k c hL
        refine ⟨hnd, fun u' => ?_⟩
        rw [hiff u']
        simp only [List.mem_append, List.mem_singleton]
        constructor
        · rintro ⟨um, hum, h1, h2⟩; exact ⟨um, Or.inl hum, h1, h2⟩
        · rintro ⟨um, hum | hum, h1, h2⟩
          · exact ⟨um, hum, h1, h2⟩
          · subst hum; exact absurd h2 (by simp [hm, RawMessage.rid]; exact fun hh => hne hh.symm)
    · intro k v h
      rcases hmem.1 h with ⟨rfl, rfl⟩ | ⟨hL, hne⟩
      · constructor
        · intro hch; exact absurd hch (by simp [hnv, NormMessage.isChan])
        · rintro ⟨um, hum, hr, hch⟩
          rcases List.mem_append.1 hum with hum | hum
          · exact absurd ⟨um, hum, hr, hch⟩ hNoneChan
          · rw [List.mem_singleton.1 hum] at hch
            exact absurd hch (by simp [hm, RawMessage.isChannel])
      · rw [hInv.chanIff k v hL]
        simp only [List.mem_append, List.mem_singleton]
        constructor
        · rintro ⟨um, hum, h1, h2⟩; exact ⟨um, Or.inl hum, h1, h2⟩
        · rintro ⟨um, hum | hum, h1, h2⟩
          · exact ⟨um, hum, h1, h2⟩
          · subst hum; exact absurd h1 (by simp [hm, RawMessage.rid]; exact fun hh => hne hh.symm)
  · -- key absent: JS Map.set appends
    rw [mapSet_of_not_mem newv hk]
    refine ⟨?_, ?_, ?_, ?_, ?_⟩
    · rw [List.map_append]
      simp only [List.map_cons, List.map_nil]
      refine List.Nodup.append hInv.keysNodup (List.nodup_singleton i0) ?_
      intro a ha hb
      rw [List.mem_singleton] at hb
      exact hk (hb ▸ ha)
    · intro k v h
      rcases List.mem_append.1 h with h | h
      · exact hInv.nidEq k v h
      · rw [List.mem_singleton] at h
        injection h with h1 h2
        subst h1; subst h2; rfl
    · intro i
      rw [List.map_append]
      simp only [List.map_cons, List.map_nil, List.mem_append,
        List.mem_singleton]
      rw [hInv.keysIff i]
      constructor
      · rintro (⟨um, hum, hr⟩ | rfl)
        · exact ⟨um, Or.inl hum, hr⟩
        · exact ⟨(u, m), Or.inr rfl, rfl⟩
      · rintro ⟨um, hum | hum, hr⟩
        · exact Or.inl ⟨um, hum, hr⟩
        · subst hum
          exact Or.inr (by simpa [hm, RawMessage.rid] using hr.symm)
    · intro k c h
      rcases List.mem_append.1 h with h | h
      · have hkkeys : k ∈ L.map Prod.fst :=
          List.mem_map.2 ⟨(k, NormMessage.chan c), h, rfl⟩
        have hne : k ≠ i0 := fun hh => hk (hh ▸ hkkeys)
        obtain ⟨hnd, hiff⟩ := hInv.chanUsers k c h
        refine ⟨hnd, fun u' => ?_⟩
        rw [hiff u']
        simp only [List.mem_append, List.mem_singleton]
        constructor
        · rintro ⟨um, hum, h1, h2⟩; exact ⟨um, Or.inl hum, h1, h2⟩
        · rintro ⟨um, hum | hum, h1, h2⟩
          · exact ⟨um, hum, h1, h2⟩
          · subst hum
            exact absurd h2 (by simp [hm, RawMessage.rid]; exact fun hh => hne hh.symm)
      · rw [List.mem_singleton] at h
        injection h with h1 h2
        exact absurd h2.symm (by simp [hnv])
    · intro k v h
      rcases List.mem_append.1 h with h | h
      · have hkkeys : k ∈ L.map Prod.fst := List.mem_map.2 ⟨(k, v), h, rfl⟩
        have hne : k ≠ i0 := fun hh => hk (hh ▸ hkkeys)
        rw [hInv.chanIff k v h]
        simp only [List.mem_append, List.mem_singleton]
        constructor
        · rintro ⟨um, hum, h1, h2⟩; exact ⟨um, Or.inl hum, h1, h2⟩
        · rintro ⟨um, hum | hum, h1, h2⟩
          · exact ⟨um, hum, h1, h2⟩
          · subst hum; exact absurd h1 (by simp [hm, RawMessage.rid]; exact fun hh => hne hh.symm)
      · rw [List.mem_singleton] at h
        injection h with h1 h2
        subst h1; subst h2
        constructor
        · intro hch; exact absurd hch (by simp [hnv, NormMessage.isChan])
        · rintro ⟨um, hum, hr, hch⟩
          rcases List.mem_append.1 hum with hum | hum
          · exact absurd ⟨um, hum, hr, hch⟩ hNoneChan
          · rw [List.mem_singleton.1 hum] at hch
            exact absurd hch (by simp [hm, RawMessage.isChannel])

lemma step_channel {F done rest : List (String × RawMessage)} {u : String}
    {i0 : String} {t : Int} {fu ms ch : String} {ij il : Bool}
    (hF : F = done ++ (u, RawMessage.channel i0 t fu ms ch ij il) :: rest)
    (hcons : ConsistentKinds F) (hnd : NodupUserIds F)
    {L : IdMap} (hInv : Inv done L) :
    ∃ L', processRecord L u (RawMessage.channel i0 t fu ms ch ij il) = some L' ∧
      Inv (done ++ [(u, RawMessage.channel i0 t fu ms ch ij il)]) L' := by
  set m : RawMessage := RawMessage.channel i0 t fu ms ch ij il with hm
  have hmF : (u, m) ∈ F := by rw [hF]; simp
  have hdoneF : ∀ um ∈ done, um ∈ F := by
    intro um h; rw [hF]; exact List.mem_append_left _ h
  have hAllChan : ∀ um ∈ done, RawMessage.rid um.2 = i0 →
      RawMessage.isChannel um.2 = true := by
    intro um hum hr
    rw [hcons um (hdoneF um hum) (u, m) hmF (by rw [hm]; exact hr)]
    simp [hm, RawMessage.isChannel]
  have hUPairNew : (u, i0) ∉ done.map (fun um => (um.1, RawMessage.rid um.2)) := by
    intro hmem
    have : F.map (fun um => (um.1, RawMessage.rid um.2)) =
        done.map (fun um => (um.1, RawMessage.rid um.2)) ++
          (u, i0) :: rest.map (fun um => (um.1, RawMessage.rid um.2)) := by
      rw [hF]; simp [hm, RawMessage.rid]
    rw [NodupUserIds, this] at hnd
    have := (List.nodup_append.1 hnd).2.2
    exact this hmem (List.mem_cons_self _ _)
  rcases hget : mapGet L i0 with _ | v
  · -- id not yet present: insert a fresh channel entry
    have hk : i0 ∉ L.map Prod.fst := mapGet_eq_none.1 hget
    set newv : NormMessage := NormMessage.chan
      { id := i0, user := fu, type := classify ij il, content := ms,
        channel := ch, time := t, toUsers := [u] } with hnv
    refine ⟨L ++ [(i0, newv)], by simp [processRecord, hget, hnv], ?_⟩
    refine ⟨?_, ?_, ?_, ?_, ?_⟩
    · rw [List.map_append]
      simp only [List.map_cons, List.map_nil]
      refine List.Nodup.append hInv.keysNodup (List.nodup_singleton i0) ?_
      intro a ha hb
      rw [List.mem_singleton] at hb
      exact hk (hb ▸ ha)
    · intro k v h
      rcases List.mem_append.1 h with h | h
      · exact hInv.nidEq k v h
      · rw [List.mem_singleton] at h
        injection h with h1 h2
        subst h1; subst h2; rfl
    · intro i
      rw [List.map_append]
      simp only [List.map_cons, List.map_nil, List.mem_append,
        List.mem_singleton]
      rw [hInv.keysIff i]
      constructor
      · rintro (⟨um, hum, hr⟩ | rfl)
        · exact ⟨um, Or.inl hum, hr⟩
        · exact ⟨(u, m), Or.inr rfl, rfl⟩
      · rintro ⟨um, hum | hum, hr⟩
        · exact Or.inl ⟨um, hum, hr⟩
        · subst hum
          exact Or.inr (by simpa [hm, RawMessage.rid] using hr.symm)
    · intro k c h
      rcases List.mem_append.1 h with h | h
      · have hkkeys : k ∈ L.map Prod.fst :=
          List.mem_map.2 ⟨(k, NormMessage.chan c), h, rfl⟩
        have hne : k ≠ i0 := fun hh => hk (hh ▸ hkkeys)
        obtain ⟨hcnd, hiff⟩ := hInv.chanUsers k c h
        refine ⟨hcnd, fun u' => ?_⟩
        rw [hiff u']
        simp only [List.mem_append, List.mem_singleton]
        constructor
        · rintro ⟨um, hum, h1, h2⟩; exact ⟨um, Or.inl hum, h1, h2⟩
        · rintro ⟨um, hum | hum, h1, h2⟩
          · exact ⟨um, hum, h1, h2⟩
          · subst hum
            exact absurd h2
              (by simp [hm, RawMessage.rid]; exact fun hh => hne hh.symm)
      · rw [List.mem_singleton] at h
        injection h with h1 h2
        subst h1
        rw [hnv] at h2
        injection h2 with h3
        subst h3
        refine ⟨List.nodup_singleton u, fun u' => ?_⟩
        show u' ∈ [u] ↔ _
        simp only [List.mem_singleton, List.mem_append]
        constructor
        · intro h4
          exact ⟨(u, m), Or.inr rfl, h4.symm, rfl⟩
        · rintro ⟨um, hum | hum, h1, h2⟩
          · exact absurd ((hInv.keysIff _).2 ⟨um, hum, h2⟩) hk
          · subst hum; exact h1.symm
    · intro k v h
      rcases List.mem_append.1 h with h | h
      · have hkkeys : k ∈ L.map Prod.fst := List.mem_map.2 ⟨(k, v), h, rfl⟩
        have hne : k ≠ i0 := fun hh => hk (hh ▸ hkkeys)
        rw [hInv.chanIff k v h]
        simp only [List.mem_append, List.mem_singleton]
        constructor
        · rintro ⟨um, hum, h1, h2⟩; exact ⟨um, Or.inl hum, h1, h2⟩
        · rintro ⟨um, hum | hum, h1, h2⟩
          · exact ⟨um, hum, h1, h2⟩
          · subst hum
            exact absurd h1
              (by simp [hm, RawMessage.rid]; exact fun hh => hne hh.symm)
      · rw [List.mem_singleton] at h
        injection h with h1 h2
        subst h1; subst h2
        simp only [hnv, NormMessage.isChan, true_iff]
        exact ⟨(u, m), List.mem_append_right _ (List.mem_singleton.2 rfl),
          rfl, rfl⟩
  · -- id present
    rcases v with c | tm
    · -- existing channel entry: push the observing user in place
      have hmemL : (i0, NormMessage.chan c) ∈ L := mapGet_mem hget
      have hk : i0 ∈ L.map Prod.fst := mem_keys_of_mapGet hget
      set newv : NormMessage := NormMessage.chan
        { c with toUsers := c.toUsers ++ [u] } with hnv
      refine ⟨mapSet L i0 newv, by simp [processRecord, hget, hnv], ?_⟩
      have hkeys := mapSet_keys_of_mem newv hk
      have hmem : ∀ {k' : String} {v' : NormMessage},
          (k', v') ∈ mapSet L i0 newv ↔
            (k' = i0 ∧ v' = newv) ∨ ((k', v') ∈ L ∧ k' ≠ i0) :=
        fun {k'} {v'} => mem_mapSet_iff hk
      obtain ⟨hcnd0, hiff0⟩ := hInv.chanUsers i0 c hmemL
      have hid0 : c.id = i0 := hInv.nidEq i0 (NormMessage.chan c) hmemL
      refine ⟨?_, ?_, ?_, ?_, ?_⟩
      · rw [hkeys]; exact hInv.keysNodup
      · intro k v h
        rcases hmem.1 h with ⟨rfl, rfl⟩ | ⟨hL, _⟩
        · simpa [hnv, NormMessage.nid] using hid0
        · exact hInv.nidEq k v hL
      · intro i
        rw [hkeys, hInv.keysIff i]
        simp only [List.mem_append, List.mem_singleton]
        constructor
        · rintro ⟨um, hum, hr⟩; exact ⟨um, Or.inl hum, hr⟩
        · rintro ⟨um, hum | hum, hr⟩
          · exact ⟨um, hum, hr⟩
          · subst hum
            have hi : i = i0 := by simpa [hm, RawMessage.rid] using hr.symm
            subst hi
            exact (hInv.keysIff i).1 hk
      · intro k c' h
        rcases hmem.1 h with ⟨rfl, hc⟩ | ⟨hL, hne⟩
        · have hc' : c' = { c with toUsers := c.toUsers ++ [u] } := by
            rw [hnv] at hc
            injection hc with h3
          subst hc'
          constructor
          · simp only [List.nodup_append]
            refine ⟨hcnd0, List.nodup_singleton u, ?_⟩
            intro a ha hb
            rw [List.mem_singleton] at hb
            subst hb
            obtain ⟨um, hum, h1, h2⟩ := (hiff0 a).1 ha
            exact hUPairNew (List.mem_map.2 ⟨um, hum, by rw [h1, h2]⟩)
          · intro u'
            simp only [List.mem_append, List.mem_singleton]
            rw [hiff0 u']
            constructor
            · rintro (⟨um, hum, h1, h2⟩ | h4)
              · exact ⟨um, Or.inl hum, h1, h2⟩
              · exact ⟨(u, m), Or.inr rfl, h4.symm, rfl⟩
            · rintro ⟨um, hum | hum, h1, h2⟩
              · exact Or.inl ⟨um, hum, h1, h2⟩
              · subst hum; exact Or.inr h1.symm
        · obtain ⟨hcnd, hiff⟩ := hInv.chanUsers k c' hL
          refine ⟨hcnd, fun u' => ?_⟩
          rw [hiff u']
          simp only [List.mem_append, List.mem_singleton]
          constructor
          · rintro ⟨um, hum, h1, h2⟩; exact ⟨um, Or.inl hum, h1, h2⟩
          · rintro ⟨um, hum | hum, h1, h2⟩
            · exact ⟨um, hum, h1, h2⟩
            · subst hum
              exact absurd h2
                (by simp [hm, RawMessage.rid]; exact fun hh => hne hh.symm)
      · intro k v h
        rcases hmem.1 h with ⟨rfl, rfl⟩ | ⟨hL, hne⟩
        · simp only [hnv, NormMessage.isChan, true_iff]
          exact ⟨(u, m), List.mem_append_right _ (List.mem_singleton.2 rfl),
            rfl, rfl⟩
        · rw [hInv.chanIff k v hL]
          simp only [List.mem_append, List.mem_singleton]
          constructor
          · rintro ⟨um, hum, h1, h2⟩; exact ⟨um, Or.inl hum, h1, h2⟩
          · rintro ⟨um, hum | hum, h1, h2⟩
            · exact ⟨um, hum, h1, h2⟩
            · subst hum
              exact absurd h1
                (by simp [hm, RawMessage.rid]; exact fun hh => hne hh.symm)
    · -- existing tell entry under a channel id: impossible given consistency
      exfalso
      have hmemL : (i0, NormMessage.tell tm) ∈ L := mapGet_mem hget
      have hk : i0 ∈ L.map Prod.fst := mem_keys_of_mapGet hget
      obtain ⟨um, hum, hr⟩ := (hInv.keysIff i0).1 hk
      have hchan := hAllChan um hum hr
      have := (hInv.chanIff i0 (NormMessage.tell tm) hmemL).2 ⟨um, hum, hr, hchan⟩
      simp [NormMessage.isChan] at this

/-- Processing preserves the invariant along any flat suffix. -/
lemma processPairs_inv (rest : List (String × RawMessage)) :
    ∀ (F done : List (String × RawMessage)) (L : IdMap),
      F = done ++ rest → ConsistentKinds F → NodupUserIds F → Inv done L →
      ∃ L', processPairs (some L) rest = some L' ∧ Inv F L' := by
  induction rest with
  | nil =>
      intro F done L hF hc hn hI
      exact ⟨L, rfl, by rw [hF, List.append_nil]; exact hI⟩
  | cons um rest ih =>
      intro F done L hF hc hn hI
      obtain ⟨u, m⟩ := um
      rcases m with ⟨i0, t, fu, ms, tu⟩ | ⟨i0, t, fu, ms, ch, ij, il⟩
      · obtain ⟨L1, hL1, hI1⟩ := step_tell hF hc hI
        rw [processPairs_cons]
        simp only at hL1 ⊢
        rw [hL1]
        exact ih F (done ++ [(u, RawMessage.tell i0 t fu ms tu)]) L1
          (by rw [hF]; simp) hc hn hI1
      · obtain ⟨L1, hL1, hI1⟩ := step_channel hF hc hn hI
        rw [processPairs_cons]
        simp only at hL1 ⊢
        rw [hL1]
        exact ih F (done ++ [(u, RawMessage.channel i0 t fu ms ch ij il)]) L1
          (by rw [hF]; simp) hc hn hI1

lemma mem_flatRecords {chats : RawBatch} {u : String} {m : RawMessage} :
    (u, m) ∈ flatRecords chats ↔ ∃ p ∈ chats, p.1 = u ∧ m ∈ p.2 := by
  induction chats with
  | nil => simp [flatRecords]
  | cons p rest ih =>
      simp only [flatRecords, List.mem_append, List.mem_map, ih,
        List.mem_cons]
      constructor
      · rintro (⟨m', hm', heq⟩ | ⟨q, hq, h1, h2⟩)
        · injection heq with h1 h2
          exact ⟨p, Or.inl rfl, h1, h2 ▸ hm'⟩
        · exact ⟨q, Or.inr hq, h1, h2⟩
      · rintro ⟨q, hq | hq, h1, h2⟩
        · subst hq
          exact Or.inl ⟨m, h2, by rw [h1]⟩
        · exact Or.inr ⟨q, hq, h1, h2⟩

lemma consistentKinds_flat {chats : RawBatch}
    (hcons : ∀ p ∈ chats, ∀ q ∈ chats, ∀ m ∈ p.2, ∀ m' ∈ q.2,
      RawMessage.rid m = RawMessage.rid m' →
        RawMessage.isChannel m = RawMessage.isChannel m') :
    ConsistentKinds (flatRecords chats) := by
  rintro ⟨u, m⟩ hum ⟨u', m'⟩ hum' hr
  obtain ⟨p, hp, _, hm⟩ := mem_flatRecords.1 hum
  obtain ⟨q, hq, _, hm'⟩ := mem_flatRecords.1 hum'
  exact hcons p hp q hq m hm m' hm' hr

lemma fst_mem_of_mem_flat {chats : RawBatch} {x : String × String}
    (hx : x ∈ (flatRecords chats).map
      (fun um => (um.1, RawMessage.rid um.2))) :
    x.1 ∈ chats.map Prod.fst := by
  obtain ⟨⟨u, m⟩, hum, hproj⟩ := List.mem_map.1 hx
  obtain ⟨p, hp, h1, _⟩ := mem_flatRecords.1 hum
  rw [← hproj]
  exact List.mem_map.2 ⟨p, hp, h1⟩

lemma nodupUserIds_flat {chats : RawBatch}
    (hkeys : (chats.map Prod.fst).Nodup)
    (hper : ∀ p ∈ chats, (p.2.map RawMessage.rid).Nodup) :
    NodupUserIds (flatRecords chats) := by
  induction chats with
  | nil => exact List.nodup_nil
  | cons p rest ih =>
      rw [List.map_cons, List.nodup_cons] at hkeys
      unfold NodupUserIds flatRecords
      rw [List.map_append]
      refine List.Nodup.append ?_
        (ih hkeys.2 (fun q hq => hper q (List.mem_cons_of_mem p hq))) ?_
      · rw [List.map_map]
        have heq : p.2.map
            ((fun um : String × RawMessage => (um.1, RawMessage.rid um.2)) ∘
              (fun m => (p.1, m))) =
            (p.2.map RawMessage.rid).map (fun r => (p.1, r)) := by
          rw [List.map_map]; rfl
        rw [heq]
        refine List.Nodup.map ?_ (hper p (List.mem_cons_self p rest))
        intro a b hab
        injection hab
      · intro a ha hb
        have ha1 : a.1 = p.1 := by
          rw [List.map_map] at ha
          obtain ⟨m', _, heq⟩ := List.mem_map.1 ha
          rw [← heq]
          rfl
        have hb1 := fst_mem_of_mem_flat hb
        rw [ha1] at hb1
        exact hkeys.1 hb1

/-- The full invariant of the `idMessages` map built by `getMessages`. -/
lemma processChats_inv {chats : RawBatch}
    (hkeys : (chats.map Prod.fst).Nodup)
    (hper : ∀ p ∈ chats, (p.2.map RawMessage.rid).Nodup)
    (hcons : ∀ p ∈ chats, ∀ q ∈ chats, ∀ m ∈ p.2, ∀ m' ∈ q.2,
      RawMessage.rid m = RawMessage.rid m' →
        RawMessage.isChannel m = RawMessage.isChannel m') :
    ∃ L, processChats chats = some L ∧ Inv (flatRecords chats) L := by
  obtain ⟨L, hL, hI⟩ := processPairs_inv (flatRecords chats)
    (flatRecords chats) [] [] (by simp) (consistentKinds_flat hcons)
    (nodupUserIds_flat hkeys hper) Inv.nil
  exact ⟨L, (processChats_eq_processPairs chats).trans hL, hI⟩

lemma sortByTime_perm (l : List NormMessage) : (sortByTime l).Perm l :=
  List.perm_insertionSort timeLE l

lemma sortByTime_sorted (l : List NormMessage) :
    List.Sorted timeLE (sortByTime l) :=
  List.sorted_insertionSort timeLE l

lemma mapGet_mapSet_self {β : Type} (L : List (String × β)) (k : String)
    (v : β) :
    mapGet (mapSet L k v) k = some v := by
  by_cases hk : k ∈ L.map Prod.fst
  · rw [mapSet_of_mem v hk]
    induction L with
    | nil => cases hk
    | cons p rest ih =>
        by_cases hp : p.1 = k
        · simp [mapGet, List.find?_cons, hp]
        · have hk' : k ∈ rest.map Prod.fst := by
            rcases List.mem_cons.1 (List.map_cons Prod.fst p rest ▸ hk)
              with h | h
            · exact absurd h.symm hp
            · exact h
          have hstep : mapGet (((p :: rest).map
              (fun q => if q.1 = k then (k, v) else q))) k =
              mapGet ((rest.map (fun q => if q.1 = k then (k, v) else q))) k := by
            simp [mapGet, List.find?_cons, hp]
          rw [hstep]
          exact ih hk'
  · rw [mapSet_of_not_mem v hk]
    induction L with
    | nil => simp [mapGet]
    | cons p rest ih =>
        have hp : ¬p.1 = k := by
          intro h
          exact hk (List.mem_map.2 ⟨p, List.mem_cons_self p rest, h⟩)
        have hk' : k ∉ rest.map Prod.fst := by
          intro h
          obtain ⟨q, hq, hqk⟩ := List.mem_map.1 h
          exact hk (List.mem_map.2 ⟨q, List.mem_cons_of_mem p hq, hqk⟩)
        have hstep : mapGet ((p :: rest) ++ [(k, v)]) k =
            mapGet (rest ++ [(k, v)]) k := by
          simp [mapGet, List.find?_cons, hp]
        rw [hstep]
        exact ih hk'

lemma mapGet_mapSet_ne {β : Type} (L : List (String × β)) (k : String) (v : β)
    {k' : String} (hne : k' ≠ k) : mapGet (mapSet L k v) k' = mapGet L k' := by
  by_cases hk : k ∈ L.map Prod.fst
  · rw [mapSet_of_mem v hk]
    clear hk
    induction L with
    | nil => rfl
    | cons p rest ih =>
        by_cases hp : p.1 = k
        · have h1 : ¬((k : String) = k') := fun h => hne h.symm
          have hstep : mapGet (((p :: rest).map
              (fun q => if q.1 = k then (k, v) else q))) k' =
              mapGet ((rest.map (fun q => if q.1 = k then (k, v) else q))) k' := by
            simp [mapGet, List.find?_cons, hp, h1]
          have hstep2 : mapGet (p :: rest) k' = mapGet rest k' := by
            have h2 : ¬(p.1 = k') := by rw [hp]; exact h1
            simp [mapGet, List.find?_cons, h2]
          rw [hstep, hstep2, ih]
        · by_cases hpk' : p.1 = k'
          · simp [mapGet, List.find?_cons, hp, hpk', hne]
          · have hstep : mapGet (((p :: rest).map
                (fun q => if q.1 = k then (k, v) else q))) k' =
                mapGet ((rest.map (fun q => if q.1 = k then (k, v) else q))) k' := by
              simp [mapGet, List.find?_cons, hp, hpk']
            have hstep2 : mapGet (p :: rest) k' = mapGet rest k' := by
              simp [mapGet, List.find?_cons, hpk']
            rw [hstep, hstep2, ih]
  · rw [mapSet_of_not_mem v hk]
    induction L with
    | nil => simp [mapGet, List.find?_cons, Ne.symm hne]
    | cons p rest ih =>
        have hk' : k ∉ rest.map Prod.fst := by
          intro h
          obtain ⟨q, hq, hqk⟩ := List.mem_map.1 h
          exact hk (List.mem_map.2 ⟨q, List.mem_cons_of_mem p hq, hqk⟩)
        by_cases hpk' : p.1 = k'
        · simp [mapGet, List.find?_cons, hpk']
        · have hstep : mapGet ((p :: rest) ++ [(k, v)]) k' =
              mapGet (rest ++ [(k, v)]) k' := by
            simp [mapGet, List.find?_cons, hpk']
          have hstep2 : mapGet (p :: rest) k' = mapGet rest k' := by
            simp [mapGet, List.find?_cons, hpk']
          rw [hstep, hstep2, ih hk']

/-- C1 (amended): provided the batch's observing-user keys are distinct, each
user's record list holds at most one record per id, and no id occurs both in
a tell record and in a channel record, `getMessages` succeeds and returns
exactly one normalized entry per distinct raw id; every channel entry's
`toUsers` is a duplicate-free enumeration of exactly the observing users whose
raw batch contained a record with that id; and an entry is channel-kind
exactly when its id came from channel records. -/
theorem getMessages_one_entry_per_id (chats : RawBatch)
    (hkeys : (chats.map Prod.fst).Nodup)
    (hper : ∀ p ∈ chats, (p.2.map RawMessage.rid).Nodup)
    (hcons : ∀ p ∈ chats, ∀ q ∈ chats, ∀ m ∈ p.2, ∀ m' ∈ q.2,
      RawMessage.rid m = RawMessage.rid m' →
        RawMessage.isChannel m = RawMessage.isChannel m') :
    ∃ out, getMessages chats = some out ∧
      (out.map NormMessage.nid).Nodup ∧
      (∀ i, i ∈ out.map NormMessage.nid ↔
        ∃ p ∈ chats, ∃ m ∈ p.2, RawMessage.rid m = i) ∧
      (∀ c, NormMessage.chan c ∈ out →
        c.toUsers.Nodup ∧
          ∀ u, u ∈ c.toUsers ↔
            ∃ p ∈ chats, p.1 = u ∧ ∃ m ∈ p.2, RawMessage.rid m = c.id) ∧
      (∀ msg ∈ out, NormMessage.isChan msg = true ↔
        ∃ p ∈ chats, ∃ m ∈ p.2, RawMessage.rid m = NormMessage.nid msg ∧
          RawMessage.isChannel m = true) := by
  obtain ⟨L, hL, hI⟩ := processChats_inv hkeys hper hcons
  refine ⟨sortByTime (L.map Prod.snd), by rw [getMessages, hL]; rfl, ?_⟩
  have perm : (sortByTime (L.map Prod.snd)).Perm (L.map Prod.snd) :=
    sortByTime_perm _
  have hmapeq : (L.map Prod.snd).map NormMessage.nid = L.map Prod.fst := by
    rw [List.map_map]
    exact List.map_congr_left (fun p hp => hI.nidEq p.1 p.2 hp)
  have hperm2 : ((sortByTime (L.map Prod.snd)).map NormMessage.nid).Perm
      (L.map Prod.fst) := hmapeq ▸ perm.map NormMessage.nid
  have hflat : ∀ i, (∃ um ∈ flatRecords chats, RawMessage.rid um.2 = i) ↔
      ∃ p ∈ chats, ∃ m ∈ p.2, RawMessage.rid m = i := by
    intro i
    constructor
    · rintro ⟨⟨u, m⟩, hum, hr⟩
      obtain ⟨p, hp, _, hm⟩ := mem_flatRecords.1 hum
      exact ⟨p, hp, m, hm, hr⟩
    · rintro ⟨p, hp, m, hm, hr⟩
      exact ⟨(p.1, m), mem_flatRecords.2 ⟨p, hp, rfl, hm⟩, hr⟩
  have hflatU : ∀ u i, (∃ um ∈ flatRecords chats,
      um.1 = u ∧ RawMessage.rid um.2 = i) ↔
      ∃ p ∈ chats, p.1 = u ∧ ∃ m ∈ p.2, RawMessage.rid m = i := by
    intro u i
    constructor
    · rintro ⟨⟨u', m⟩, hum, h1, hr⟩
      obtain ⟨p, hp, h2, hm⟩ := mem_flatRecords.1 hum
      exact ⟨p, hp, h2.trans h1, m, hm, hr⟩
    · rintro ⟨p, hp, h1, m, hm, hr⟩
      exact ⟨(p.1, m), mem_flatRecords.2 ⟨p, hp, rfl, hm⟩, h1, hr⟩
  have hflatC : ∀ i, (∃ um ∈ flatRecords chats,
      RawMessage.rid um.2 = i ∧ RawMessage.isChannel um.2 = true) ↔
      ∃ p ∈ chats, ∃ m ∈ p.2, RawMessage.rid m = i ∧
        RawMessage.isChannel m = true := by
    intro i
    constructor
    · rintro ⟨⟨u, m⟩, hum, hr, hc⟩
      obtain ⟨p, hp, _, hm⟩ := mem_flatRecords.1 hum
      exact ⟨p, hp, m, hm, hr, hc⟩
    · rintro ⟨p, hp, m, hm, hr, hc⟩
      exact ⟨(p.1, m), mem_flatRecords.2 ⟨p, hp, rfl, hm⟩, hr, hc⟩
  refine ⟨hperm2.nodup_iff.2 hI.keysNodup, ?_, ?_, ?_⟩
  · intro i
    rw [hperm2.mem_iff, hI.keysIff i, hflat i]
  · intro c hc
    have hc' : NormMessage.chan c ∈ L.map Prod.snd := perm.mem_iff.1 hc
    obtain ⟨p, hp, hpc⟩ := List.mem_map.1 hc'
    have hmemL : (p.1, NormMessage.chan c) ∈ L := by
      rw [← hpc]; exact hp
    have hid : c.id = p.1 := hI.nidEq p.1 (NormMessage.chan c) hmemL
    obtain ⟨hnd, hiff⟩ := hI.chanUsers p.1 c hmemL
    refine ⟨hnd, fun u => ?_⟩
    rw [hiff u, hid, hflatU u p.1]
  · intro msg hmsg
    have hmsg' : msg ∈ L.map Prod.snd := perm.mem_iff.1 hmsg
    obtain ⟨p, hp, hpm⟩ := List.mem_map.1 hmsg'
    have hmemL : (p.1, msg) ∈ L := by rw [← hpm]; exact hp
    have hid : NormMessage.nid msg = p.1 := hI.nidEq p.1 msg hmemL
    rw [hI.chanIff p.1 msg hmemL, hid, hflatC p.1]

/-- C1 counterexample to the claim as stated: a batch in which one observing
user's record list contains the same channel-scoped id twice makes
`getMessages` push that user onto `toUsers` twice, so `toUsers` is not the
(duplicate-free) set of observing users that saw the id. -/
theorem getMessages_toUsers_dup_counterexample :
    getMessages [("alice", [RawMessage.channel "1" 100 "bob" "hi" "0000"
        false false,
      RawMessage.channel "1" 100 "bob" "hi" "0000" false false])] =
      some [NormMessage.chan
        { id := "1", user := "bob", type := MessageType.send,
          content := "hi", channel := "0000", time := 100,
          toUsers := ["alice", "alice"] }] ∧
      ¬(["alice", "alice"] : List String).Nodup := by
  constructor
  · decide
  · decide

/-- Witness for the amended C1 at the spec's own two-observer scenario. -/
theorem getMessages_one_entry_per_id_witness :
    ∃ out, getMessages [("alice",
        [RawMessage.channel "1" 100 "bob" "hi" "0000" false false]),
      ("carol", [RawMessage.channel "1" 100 "bob" "hi" "0000" false false])] =
        some out ∧
      (out.map NormMessage.nid).Nodup ∧
      (∀ i, i ∈ out.map NormMessage.nid ↔
        ∃ p ∈ ([("alice",
            [RawMessage.channel "1" 100 "bob" "hi" "0000" false false]),
          ("carol",
            [RawMessage.channel "1" 100 "bob" "hi" "0000" false false])] :
              RawBatch), ∃ m ∈ p.2, RawMessage.rid m = i) ∧
      (∀ c, NormMessage.chan c ∈ out →
        c.toUsers.Nodup ∧
          ∀ u, u ∈ c.toUsers ↔
            ∃ p ∈ ([("alice",
                [RawMessage.channel "1" 100 "bob" "hi" "0000" false false]),
              ("carol",
                [RawMessage.channel "1" 100 "bob" "hi" "0000" false false])] :
                  RawBatch), p.1 = u ∧ ∃ m ∈ p.2, RawMessage.rid m = c.id) ∧
      (∀ msg ∈ out, NormMessage.isChan msg = true ↔
        ∃ p ∈ ([("alice",
            [RawMessage.channel "1" 100 "bob" "hi" "0000" false false]),
          ("carol",
            [RawMessage.channel "1" 100 "bob" "hi" "0000" false false])] :
              RawBatch), ∃ m ∈ p.2, RawMessage.rid m = NormMessage.nid msg ∧
          RawMessage.isChannel m = true) :=
  getMessages_one_entry_per_id _ (by decide) (by decide) (by decide)

/-- C2: every sequence returned by `getMessages` is sorted by non-decreasing
`time`: whenever `i < j`, the `i`-th entry's time is at most the `j`-th's. -/
theorem getMessages_sorted_by_time (chats : RawBatch)
    (out : List NormMessage) (h : getMessages chats = some out)
    (i j : Nat) (hij : i < j) (hj : j < out.length) :
    NormMessage.time (out.get ⟨i, lt_trans hij hj⟩) ≤
      NormMessage.time (out.get ⟨j, hj⟩) := by
  obtain ⟨L, hL, hout⟩ : ∃ L, processChats chats = some L ∧
      out = sortByTime (L.map Prod.snd) := by
    unfold getMessages at h
    rcases hp : processChats chats with _ | L
    · rw [hp] at h; cases h
    · rw [hp] at h
      exact ⟨L, rfl, (Option.some.injEq _ _ ▸ h).symm⟩
  have hs : List.Sorted timeLE out := hout ▸ sortByTime_sorted _
  exact hs.rel_get_of_lt hij

/-- Witness for C2 on a two-message batch delivered out of time order. -/
theorem getMessages_sorted_by_time_witness :
    NormMessage.time ((
      [NormMessage.chan
        { id := "1", user := "u", type := MessageType.send, content := "y",
          channel := "c", time := 100, toUsers := ["alice"] },
       NormMessage.chan
        { id := "2", user := "u", type := MessageType.send, content := "x",
          channel := "c", time := 200, toUsers := ["alice"] }] :
            List NormMessage).get ⟨0, by decide⟩) ≤
      NormMessage.time ((
      [NormMessage.chan
        { id := "1", user := "u", type := MessageType.send, content := "y",
          channel := "c", time := 100, toUsers := ["alice"] },
       NormMessage.chan
        { id := "2", user := "u", type := MessageType.send, content := "x",
          channel := "c", time := 200, toUsers := ["alice"] }] :
            List NormMessage).get ⟨1, by decide⟩) :=
  getMessages_sorted_by_time
    [("alice", [RawMessage.channel "2" 200 "u" "x" "c" false false,
                RawMessage.channel "1" 100 "u" "y" "c" false false])]
    _ (by decide) 0 1 (by decide) (by decide)

/-- C9: when the normalizer meets a further channel-scoped record whose id is
already mapped to a channel entry, it only appends the current observing user
to that entry's `toUsers`; the entry's id, sender, type, channel, content and
time are untouched, and every other id's entry is untouched. -/
theorem processRecord_dup_frame (L : IdMap) (u : String) (i0 : String)
    (t : Int) (fu ms ch : String) (ij il : Bool) (c : ChannelMessage)
    (hget : mapGet L i0 = some (NormMessage.chan c)) :
    processRecord L u (RawMessage.channel i0 t fu ms ch ij il) =
      some (mapSet L i0
        (NormMessage.chan { c with toUsers := c.toUsers ++ [u] })) ∧
    mapGet (mapSet L i0
        (NormMessage.chan { c with toUsers := c.toUsers ++ [u] })) i0 =
      some (NormMessage.chan
        { id := c.id, user := c.user, type := c.type, content := c.content,
          channel := c.channel, time := c.time,
          toUsers := c.toUsers ++ [u] }) ∧
    ∀ k, k ≠ i0 → mapGet (mapSet L i0
        (NormMessage.chan { c with toUsers := c.toUsers ++ [u] })) k =
      mapGet L k := by
  refine ⟨by simp [processRecord, hget], ?_, ?_⟩
  · exact mapGet_mapSet_self L i0 _
  · intro k hk
    exact mapGet_mapSet_ne L i0 _ hk

/-- Witness for C9 on a one-entry map receiving a duplicate of id "1". -/
theorem processRecord_dup_frame_witness :
    processRecord
        [("1", NormMessage.chan
          { id := "1", user := "bob", type := MessageType.send,
            content := "hi", channel := "0000", time := 100,
            toUsers := ["alice"] })] "carol"
        (RawMessage.channel "1" 100 "bob" "hi" "0000" false false) =
      some (mapSet
        [("1", NormMessage.chan
          { id := "1", user := "bob", type := MessageType.send,
            content := "hi", channel := "0000", time := 100,
            toUsers := ["alice"] })] "1"
        (NormMessage.chan
          { id := "1", user := "bob", type := MessageType.send,
            content := "hi", channel := "0000", time := 100,
            toUsers := ["alice"] ++ ["carol"] })) ∧
    mapGet (mapSet
        [("1", NormMessage.chan
          { id := "1", user := "bob", type := MessageType.send,
            content := "hi", channel := "0000", time := 100,
            toUsers := ["alice"] })] "1"
        (NormMessage.chan
          { id := "1", user := "bob", type := MessageType.send,
            content := "hi", channel := "0000", time := 100,
            toUsers := ["alice"] ++ ["carol"] })) "1" =
      some (NormMessage.chan
        { id := "1", user := "bob", type := MessageType.send,
          content := "hi", channel := "0000", time := 100,
          toUsers := ["alice"] ++ ["carol"] }) ∧
    ∀ k, k ≠ "1" → mapGet (mapSet
        [("1", NormMessage.chan
          { id := "1", user := "bob", type := MessageType.send,
            content := "hi", channel := "0000", time := 100,
            toUsers := ["alice"] })] "1"
        (NormMessage.chan
          { id := "1", user := "bob", type := MessageType.send,
            content := "hi", channel := "0000", time := 100,
            toUsers := ["alice"] ++ ["carol"] })) k =
      mapGet [("1", NormMessage.chan
          { id := "1", user := "bob", type := MessageType.send,
            content := "hi", channel := "0000", time := 100,
            toUsers := ["alice"] })] k :=
  processRecord_dup_frame
    [("1", NormMessage.chan
      { id := "1", user := "bob", type := MessageType.send,
        content := "hi", channel := "0000", time := 100,
        toUsers := ["alice"] })]
    "carol" "1" 100 "bob" "hi" "0000" false false
    { id := "1", user := "bob", type := MessageType.send,
      content := "hi", channel := "0000", time := 100,
      toUsers := ["alice"] }
    (by decide)

/-- C6: a poll cycle whose fetch resolves with an empty sequence invokes no
message observer, advances the high-water-mark to the current wall-clock
time, keeps `lastMessageId`, and still reaches the rescheduling call. -/
theorem loop_empty_fetch (s : LoopState) (now : Int) :
    getMessagesLoop s (some []) now =
      ({ time := now, lastMessageId := s.lastMessageId }, [], true) := rfl

/-- C3: across two consecutive poll cycles, if the first cycle dispatched a
non-empty batch then `lastMessageId` records the id of its last dispatched
message, and if the second fetch's first message carries exactly that id
(and the fetch's ids are duplicate-free, as `getMessages` guarantees), the
boundary message is dropped: no message with that id is dispatched again. -/
theorem loop_no_boundary_redelivery (s s1 : LoopState)
    (f1 : List NormMessage) (now1 now2 : Int)
    (d1 : List NormMessage) (r1 : Bool)
    (h1 : getMessagesLoop s (some f1) now1 = (s1, d1, r1))
    (hne : d1 ≠ [])
    (msgs2 : List NormMessage)
    (hhead : msgs2.head?.map NormMessage.nid = some s1.lastMessageId)
    (hnodup : (msgs2.map NormMessage.nid).Nodup) :
    s1.lastMessageId = NormMessage.nid (d1.getLast hne) ∧
      ∀ msg ∈ (getMessagesLoop s1 (some msgs2) now2).2.1,
        NormMessage.nid msg ≠ s1.lastMessageId := by
  have hlast : s1.lastMessageId = NormMessage.nid (d1.getLast hne) := by
    rcases f1 with _ | ⟨m0, rest⟩
    · rw [getMessagesLoop] at h1
      injection h1 with h1a h1b
      injection h1b with h1b h1c
      exact absurd h1b.symm hne
    · rw [getMessagesLoop] at h1
      rcases hsplit : (if NormMessage.nid m0 = s.lastMessageId then rest
          else m0 :: rest) with _ | ⟨m1, rest1⟩
      · rw [hsplit] at h1
        injection h1 with h1a h1b
        injection h1b with h1b h1c
        exact absurd h1b.symm hne
      · rw [hsplit] at h1
        injection h1 with h1a h1b
        injection h1b with h1b h1c
        subst h1b
        rw [← h1a]
  refine ⟨hlast, ?_⟩
  rcases msgs2 with _ | ⟨n0, nrest⟩
  · intro msg hmsg
    cases hmsg
  · have hn0 : NormMessage.nid n0 = s1.lastMessageId := by
      simpa using hhead
    intro msg hmsg
    rw [getMessagesLoop] at hmsg
    rw [if_pos hn0] at hmsg
    rcases nrest with _ | ⟨n1, nrest1⟩
    · cases hmsg
    · have hmsg' : msg ∈ n1 :: nrest1 := hmsg
      simp only [List.map_cons, List.nodup_cons, List.mem_cons,
        List.mem_map] at hnodup
      intro heq
      apply hnodup.1
      rcases List.mem_cons.1 hmsg' with hh | hh
      · exact Or.inl (by rw [← hh, heq]; exact hn0)
      · exact Or.inr ⟨msg, hh, heq.trans hn0.symm⟩

/-- Witness for C3: cycle one dispatches messages "1","2"; cycle two fetches
"2","3"; the boundary message "2" is not redelivered. -/
theorem loop_no_boundary_redelivery_witness :
    (({ time := 200, lastMessageId := "2" } : LoopState).lastMessageId =
      NormMessage.nid (([NormMessage.tell
          { id := "1", user := "u", content := "a", time := 100,
            toUser := "v" },
        NormMessage.tell
          { id := "2", user := "u", content := "b", time := 200,
            toUser := "v" }] : List NormMessage).getLast (by simp)) ∧
      ∀ msg ∈ (getMessagesLoop { time := 200, lastMessageId := "2" }
          (some [NormMessage.tell
            { id := "2", user := "u", content := "b", time := 200,
              toUser := "v" },
          NormMessage.tell
            { id := "3", user := "u", content := "c", time := 300,
              toUser := "v" }]) 400).2.1,
        NormMessage.nid msg ≠
          ({ time := 200, lastMessageId := "2" } : LoopState).lastMessageId) :=
  loop_no_boundary_redelivery
    { time := 0, lastMessageId := "" } { time := 200, lastMessageId := "2" }
    [NormMessage.tell
      { id := "1", user := "u", content := "a", time := 100, toUser := "v" },
     NormMessage.tell
      { id := "2", user := "u", content := "b", time := 200, toUser := "v" }]
    50 400
    [NormMessage.tell
      { id := "1", user := "u", content := "a", time := 100, toUser := "v" },
     NormMessage.tell
      { id := "2", user := "u", content := "b", time := 200, toUser := "v" }]
    true (by decide) (by decide)
    [NormMessage.tell
      { id := "2", user := "u", content := "b", time := 200, toUser := "v" },
     NormMessage.tell
      { id := "3", user := "u", content := "c", time := 300, toUser := "v" }]
    (by decide) (by decide)

lemma mapGet_nil {β : Type} (c : String) :
    mapGet ([] : List (String × β)) c = none := rfl

lemma mapGet_cons_self {β : Type} (q : String × β)
    (rest : List (String × β)) : mapGet (q :: rest) q.1 = some q.2 := by
  simp [mapGet, List.find?_cons]

lemma mapGet_cons_ne {β : Type} {q : String × β} {rest : List (String × β)}
    {c : String} (h : ¬q.1 = c) : mapGet (q :: rest) c = mapGet rest c := by
  simp [mapGet, List.find?_cons, h]

lemma getChannelsFold_fst (b : Bool) (d : AccountData) :
    ∀ st, (getChannelsFold b st d).1 =
      d.foldl (fun us p => mapSet us p.1 (p.2.map Prod.fst)) st.1 := by
  induction d with
  | nil => intro st; rfl
  | cons p rest ih => intro st; exact ih _

lemma usersFold_eq (d : AccountData) :
    ∀ us0 : List (String × List String),
      (∀ k ∈ d.map Prod.fst, k ∉ us0.map Prod.fst) →
      (d.map Prod.fst).Nodup →
      d.foldl (fun us p => mapSet us p.1 (p.2.map Prod.fst)) us0 =
        us0 ++ d.map (fun p => (p.1, p.2.map Prod.fst)) := by
  induction d with
  | nil => intro us0 _ _; rw [List.map_nil, List.append_nil]; rfl
  | cons p rest ih =>
      intro us0 hfresh hnd
      rw [List.map_cons, List.nodup_cons] at hnd
      have hp : p.1 ∉ us0.map Prod.fst :=
        hfresh p.1 (List.mem_map.2 ⟨p, List.mem_cons_self p rest, rfl⟩)
      have hstep : (p :: rest).foldl
          (fun us q => mapSet us q.1 (q.2.map Prod.fst)) us0 =
          rest.foldl (fun us q => mapSet us q.1 (q.2.map Prod.fst))
            (us0 ++ [(p.1, p.2.map Prod.fst)]) := by
        rw [List.foldl_cons, mapSet_of_not_mem _ hp]
      rw [hstep, ih (us0 ++ [(p.1, p.2.map Prod.fst)]) ?_ hnd.2]
      · rw [List.map_cons, List.append_assoc]
        rfl
      · intro k hk
        rw [List.map_append]
        simp only [List.map_cons, List.map_nil, List.mem_append,
          List.mem_singleton]
        rintro (h | h)
        · exact hfresh k (List.mem_map.2
            (by
              obtain ⟨q, hq, hqk⟩ := List.mem_map.1 hk
              exact ⟨q, List.mem_cons_of_mem p hq, hqk⟩)) h
        · exact hnd.1 (h ▸ hk)

lemma mapGet_addChannels (c : String)
    (channelsData : List (String × List String)) :
    ∀ chs, mapGet (addChannels chs channelsData) c =
      match mapGet chs c with
      | some v => some v
      | none => mapGet channelsData c := by
  induction channelsData with
  | nil =>
      intro chs
      rcases h : mapGet chs c with _ | v <;> simp [addChannels, mapGet_nil, h]
  | cons q rest ih =>
      intro chs
      have hunfold : addChannels chs (q :: rest) =
          addChannels (if (mapGet chs q.1).isSome then chs
            else mapSet chs q.1 q.2) rest := rfl
      rw [hunfold, ih]
      by_cases hqc : q.1 = c
      · subst hqc
        rcases h : mapGet chs q.1 with _ | v
        · simp only [Option.isSome_none, Bool.false_eq_true, if_false,
            mapGet_mapSet_self, mapGet_cons_self]
        · simp only [Option.isSome_some, if_true, h]
      · have h2 : mapGet (q :: rest) c = mapGet rest c := mapGet_cons_ne hqc
        have hset : mapGet (mapSet chs q.1 q.2) c = mapGet chs c :=
          mapGet_mapSet_ne _ _ _ (fun hh => hqc hh.symm)
        rcases h : mapGet chs c with _ | v
        · rcases h3 : mapGet chs q.1 with _ | w
          · simp only [Option.isSome_none, Bool.false_eq_true, if_false,
              hset, h, h2]
          · simp only [Option.isSome_some, if_true, h, h2]
        · rcases h3 : mapGet chs q.1 with _ | w
          · simp only [Option.isSome_none, Bool.false_eq_true, if_false,
              hset, h]
          · simp only [Option.isSome_some, if_true, h]

lemma channelsFold_lookup (c : String) (d : AccountData) :
    ∀ st : List (String × List String) × List (String × List String),
      mapGet (getChannelsFold true st d).2 c =
        match mapGet st.2 c with
        | some v => some v
        | none => firstSeenChannelUsers d c := by
  induction d with
  | nil =>
      intro st
      rcases h : mapGet st.2 c with _ | v <;>
        simp [getChannelsFold, firstSeenChannelUsers, h]
  | cons p rest ih =>
      intro st
      have hunfold : getChannelsFold true st (p :: rest) =
          getChannelsFold true
            (mapSet st.1 p.1 (p.2.map Prod.fst), addChannels st.2 p.2)
            rest := rfl
      rw [hunfold, ih, mapGet_addChannels]
      rcases h : mapGet st.2 c with _ | v
      · rcases h2 : mapGet p.2 c with _ | us <;>
          simp [firstSeenChannelUsers, h2]
      · rfl

/-- C5: with `mapChannels = false`, `getChannels` returns only the
user→channels map, each user mapped to exactly the channel names keyed in
its raw entry; with `true` it additionally returns a channel→users map whose
lookup is the user list of the first user entry that mentions the channel,
later sightings being ignored. -/
theorem getChannels_users_and_first_seen (d : AccountData)
    (hkeys : (d.map Prod.fst).Nodup) :
    getChannels d false =
      GetChannelsResult.usersOnly
        (d.map (fun p => (p.1, p.2.map Prod.fst))) ∧
    ∃ chs, getChannels d true =
        GetChannelsResult.withChannels
          (d.map (fun p => (p.1, p.2.map Prod.fst))) chs ∧
      ∀ c, mapGet chs c = firstSeenChannelUsers d c := by
  have husers : ∀ b : Bool, (getChannelsFold b ([], []) d).1 =
      d.map (fun p => (p.1, p.2.map Prod.fst)) := by
    intro b
    rw [getChannelsFold_fst b d ([], []),
      usersFold_eq d [] (by simp) hkeys]
    rfl
  refine ⟨?_, (getChannelsFold true ([], []) d).2, ?_, ?_⟩
  · show GetChannelsResult.usersOnly (getChannelsFold false ([], []) d).1 = _
    rw [husers false]
  · show GetChannelsResult.withChannels (getChannelsFold true ([], []) d).1
        (getChannelsFold true ([], []) d).2 = _
    rw [husers true]
  · intro c
    rw [channelsFold_lookup c d ([], [])]
    rfl

/-- Witness for C5 on a two-user account where channel "c1" is mentioned by
both users. -/
theorem getChannels_users_and_first_seen_witness :
    getChannels
        [("alice", [("c1", ["alice", "bob"])]),
         ("bob", [("c1", ["bob"]), ("c2", ["bob"])])] false =
      GetChannelsResult.usersOnly
        (([("alice", [("c1", ["alice", "bob"])]),
           ("bob", [("c1", ["bob"]), ("c2", ["bob"])])] :
            AccountData).map (fun p => (p.1, p.2.map Prod.fst))) ∧
    ∃ chs, getChannels
        [("alice", [("c1", ["alice", "bob"])]),
         ("bob", [("c1", ["bob"]), ("c2", ["bob"])])] true =
        GetChannelsResult.withChannels
          (([("alice", [("c1", ["alice", "bob"])]),
             ("bob", [("c1", ["bob"]), ("c2", ["bob"])])] :
              AccountData).map (fun p => (p.1, p.2.map Prod.fst))) chs ∧
      ∀ c, mapGet chs c = firstSeenChannelUsers
        [("alice", [("c1", ["alice", "bob"])]),
         ("bob", [("c1", ["bob"]), ("c2", ["bob"])])] c :=
  getChannels_users_and_first_seen
    [("alice", [("c1", ["alice", "bob"])]),
     ("bob", [("c1", ["bob"]), ("c2", ["bob"])])]
    (by decide)

/-- C4 counterexample to the claim as stated: rejections are bare `Error`
values carrying only a message, so a falsy-`ok` response whose
server-supplied `msg` is exactly "expired or invalid token" produces a
rejection identical to the 401 rejection — the two are not distinguishable. -/
theorem api_auth_remote_indistinguishable_counterexample :
    handleResponse 401 (some "application/json; charset=utf-8")
        { ok := true, msg := "" } =
      Except.error "expired or invalid token" ∧
    handleResponse 200 (some "application/json; charset=utf-8")
        { ok := false, msg := "expired or invalid token" } =
      Except.error "expired or invalid token" := by
  exact ⟨rfl, rfl⟩

/-- C4 (amended): a 401 rejects with the fixed auth message whatever the rest
of the response holds; a non-401 response rejects with the server-supplied
`msg` when its envelope is not ok, with the fixed missing-content-type
message when the header is absent, and with the mime-type message when the
type is not JSON; and the ok-falsy rejection is distinguishable from the 401
rejection provided the server-supplied msg is not itself the fixed auth
string. -/
theorem api_error_taxonomy (sc : Int) (ct : String) (parsed : ParsedBody)
    (hsc : sc ≠ 401) :
    (∀ ct' parsed', handleResponse 401 ct' parsed' =
      Except.error "expired or invalid token") ∧
    (mimeTypeOf ct = "application/json" → ct ≠ "" → parsed.ok = false →
      handleResponse sc (some ct) parsed = Except.error parsed.msg) ∧
    (handleResponse sc none parsed =
      Except.error "missing content-type in headers") ∧
    (mimeTypeOf ct ≠ "application/json" → ct ≠ "" →
      handleResponse sc (some ct) parsed =
        Except.error ("server response mime type was '" ++ mimeTypeOf ct
          ++ "'")) ∧
    (parsed.msg ≠ "expired or invalid token" → parsed.ok = false →
      mimeTypeOf ct = "application/json" → ct ≠ "" →
      handleResponse sc (some ct) parsed ≠
        handleResponse 401 (some ct) parsed) := by
  refine ⟨?_, ?_, ?_, ?_, ?_⟩
  · intro ct' parsed'
    simp [handleResponse]
  · intro hm hne hok
    simp [handleResponse, hsc, hne, hm, hok]
  · simp [handleResponse, hsc]
  · intro hm hne
    simp [handleResponse, hsc, hne, hm]
  · intro hmsg hok hm hne
    simp [handleResponse, hsc, hne, hm, hok]
    intro hcontra
    exact hmsg hcontra

/-- Witness for the amended C4 at a 200 response with an ok-falsy body. -/
theorem api_error_taxonomy_witness :
    (∀ ct' parsed', handleResponse 401 ct' parsed' =
      Except.error "expired or invalid token") ∧
    (mimeTypeOf "application/json" = "application/json" →
      ("application/json" : String) ≠ "" →
      ParsedBody.ok { ok := false, msg := "oops" } = false →
      handleResponse 200 (some "application/json")
        { ok := false, msg := "oops" } =
        Except.error (ParsedBody.msg { ok := false, msg := "oops" })) ∧
    (handleResponse 200 none { ok := false, msg := "oops" } =
      Except.error "missing content-type in headers") ∧
    (mimeTypeOf "application/json" ≠ "application/json" →
      ("application/json" : String) ≠ "" →
      handleResponse 200 (some "application/json")
        { ok := false, msg := "oops" } =
        Except.error ("server response mime type was '"
          ++ mimeTypeOf "application/json" ++ "'")) ∧
    (ParsedBody.msg { ok := false, msg := "oops" } ≠
        "expired or invalid token" →
      ParsedBody.ok { ok := false, msg := "oops" } = false →
      mimeTypeOf "application/json" = "application/json" →
      ("application/json" : String) ≠ "" →
      handleResponse 200 (some "application/json")
        { ok := false, msg := "oops" } ≠
        handleResponse 401 (some "application/json")
          { ok := false, msg := "oops" }) :=
  api_error_taxonomy 200 "application/json" { ok := false, msg := "oops" }
    (by decide)

/-- C10: calling `getMessages` with a plain string `u` behaves exactly like
calling it with the one-element list `[u]`: the string is normalized to a
singleton list before the fetch, and everything after is identical. -/
theorem getMessages_string_eq_singleton (chatToken : String)
    (fetch : String → List String → Int → RawBatch) (u : String) (a : Int) :
    getMessagesFull chatToken fetch (Usernames.str u) a =
      getMessagesFull chatToken fetch (Usernames.list [u]) a := rfl

lemma registerAll_open {α : Type} (hs : List α) :
    ∀ (tok : Option String) (us : Option (List String)) (q : List α),
      registerAll ⟨tok, us, some q⟩ hs =
        Except.ok (⟨tok, us, some (q ++ hs)⟩ : ClientState α) := by
  induction hs with
  | nil =>
      intro tok us q
      rw [List.append_nil]
      rfl
  | cons h rest ih =>
      intro tok us q
      have hstep : registerAll (⟨tok, us, some q⟩ : ClientState α)
          (h :: rest) = registerAll ⟨tok, us, some (q ++ [h])⟩ rest := rfl
      rw [hstep, ih, List.append_assoc]
      rfl

/-- C8: a session built from a 5-character pass holds no token while any
number of start observers are queued; when the token exchange resolves and
`init` completes, the fired-handler list is exactly the registration list —
each queued observer fires exactly once, in registration order, with the
resolved token — and the queue is nulled afterwards. -/
theorem client_pass_lifecycle (pass : String) (h5 : pass.length = 5)
    (hs : List ℕ) (t : String) (us : List String) :
    (mkClient ℕ pass).token = none ∧
    ∃ s1, registerAll (mkClient ℕ pass) hs = Except.ok s1 ∧
      s1.token = none ∧
      (initResolve s1 t us).2 = hs ∧
      (initResolve s1 t us).1.token = some t ∧
      (initResolve s1 t us).1.startHandlers = none := by
  have hmk : mkClient ℕ pass =
      ⟨none, none, some []⟩ := by
    unfold mkClient
    rw [if_pos h5]
  rw [hmk]
  refine ⟨rfl, ⟨none, none, some hs⟩, ?_, rfl, rfl, rfl, rfl⟩
  rw [registerAll_open hs none none []]
  rfl

/-- Witness for C8 with pass "abcde" and two queued observers. -/
theorem client_pass_lifecycle_witness :
    (mkClient ℕ "abcde").token = none ∧
    ∃ s1, registerAll (mkClient ℕ "abcde") [0, 1] = Except.ok s1 ∧
      s1.token = none ∧
      (initResolve s1 "tok" ["u"]).2 = [0, 1] ∧
      (initResolve s1 "tok" ["u"]).1.token = some "tok" ∧
      (initResolve s1 "tok" ["u"]).1.startHandlers = none :=
  client_pass_lifecycle "abcde" (by decide) [0, 1] "tok" ["u"]

/-- C7: with a token present, `tellMessage`/`sendMessage` issue their
`create_chat` request immediately with that token; with no token and an open
queue, the call defers by appending a handler which, for whatever token the
session later resolves with, issues exactly the same request — and that
handler is among the ones fired by `init`, so the remote call's eventual
outcome (success or failure alike) reaches the original caller through the
promise it was handed. -/
theorem client_send_deferred (s : ClientState (String → CreateChatRequest))
    (frm toU ch message : String) :
    (∀ tok, s.token = some tok →
      clientTellMessage s frm toU message =
        Except.ok (s, SendCall.immediate (tellMessage tok frm toU message)) ∧
      clientSendMessage s frm ch message =
        Except.ok (s, SendCall.immediate (sendMessage tok frm ch message))) ∧
    (s.token = none → ∀ q, s.startHandlers = some q →
      (∃ f, (∀ t, f t = tellMessage t frm toU message) ∧
        clientTellMessage s frm toU message =
          Except.ok ({ s with startHandlers := some (q ++ [f]) },
            SendCall.deferred) ∧
        ∀ t us, f ∈ (initResolve
          ({ s with startHandlers := some (q ++ [f]) }) t us).2) ∧
      (∃ g, (∀ t, g t = sendMessage t frm ch message) ∧
        clientSendMessage s frm ch message =
          Except.ok ({ s with startHandlers := some (q ++ [g]) },
            SendCall.deferred) ∧
        ∀ t us, g ∈ (initResolve
          ({ s with startHandlers := some (q ++ [g]) }) t us).2)) := by
  constructor
  · intro tok htok
    constructor
    · unfold clientTellMessage
      rw [htok]
    · unfold clientSendMessage
      rw [htok]
  · intro htok q hq
    constructor
    · refine ⟨fun t => tellMessage t frm toU message, fun t => rfl, ?_, ?_⟩
      · unfold clientTellMessage onStart
        rw [htok, hq]
        rfl
      · intro t us
        show _ ∈ (Option.getD (some (q ++ [_])) [])
        rw [Option.getD_some]
        exact List.mem_append_right q (List.mem_singleton.2 rfl)
    · refine ⟨fun t => sendMessage t frm ch message, fun t => rfl, ?_, ?_⟩
      · unfold clientSendMessage onStart
        rw [htok, hq]
        rfl
      · intro t us
        show _ ∈ (Option.getD (some (q ++ [_])) [])
        rw [Option.getD_some]
        exact List.mem_append_right q (List.mem_singleton.2 rfl)

/-- Witness for C7: the immediate path at a ready session, and the deferred
path at an authenticating session with an empty queue. -/
theorem client_send_deferred_witness :
    (clientTellMessage ⟨some "tok", none, some []⟩ "alice" "bob" "hi" =
      Except.ok ((⟨some "tok", none, some []⟩ :
          ClientState (String → CreateChatRequest)),
        SendCall.immediate (tellMessage "tok" "alice" "bob" "hi"))) ∧
    (∃ f, (∀ t, f t = tellMessage t "alice" "bob" "hi") ∧
      clientTellMessage
          (⟨none, none, some []⟩ :
            ClientState (String → CreateChatRequest)) "alice" "bob" "hi" =
        Except.ok ((⟨none, none, some ([] ++ [f])⟩ :
            ClientState (String → CreateChatRequest)),
          SendCall.deferred) ∧
      ∀ t us, f ∈ (initResolve
        (⟨none, none, some ([] ++ [f])⟩ :
          ClientState (String → CreateChatRequest)) t us).2) :=
  ⟨((client_send_deferred ⟨some "tok", none, some []⟩
      "alice" "bob" "ch" "hi").1 "tok" rfl).1,
   (((client_send_deferred ⟨none, none, some []⟩
      "alice" "bob" "ch" "hi").2 rfl [] rfl).1)⟩

end HackmudChat
